import Mathlib

/-!
A shallow embedding of the statsd-proxy dispatch engine and health
supervisor (src/event_loop.rs, src/hash.rs, src/socket.rs), together with
theorems checking the natural-language specification against it.

Conventions of the embedding:
* bytes are `Nat` values (each < 256 in the source; the bound is never needed);
* `io::Result<Option<T>>` (with `EWOULDBLOCK` mapped to `Ok(None)` by
  `err_check` in socket.rs) becomes `IoRes T` with constructors
  `ready | notReady | err`;
* timestamps (`time::Tm`) are integer seconds, durations compare in seconds;
* effects on the operating system (actual syscalls, event-loop registration,
  log lines) are either parameters (the result a syscall would return) or
  fields of an effect record (what the handler passed to `sendto`, whether
  it re-armed interest, whether `unwrap` panicked).
-/

/-- Result of a non-blocking socket call, after socket.rs `err_check`:
`ready a` is `Ok(Some(a))`, `notReady` is `Ok(None)` (would-block),
`err` is `Err(e)`. -/
inductive IoRes (α : Type) where
  | ready (a : α)
  | notReady
  | err
deriving DecidableEq

/-- `ServerNode` from src/hash.rs (the `sock` field is an OS handle and is
identified by the node itself). -/
structure ServerNode where
  host : String
  port : Nat
  adminport : Nat
deriving DecidableEq

/-- `Node::name` from src/hash.rs: `format!("{}:{}", host, port)`. -/
def ServerNode.name (n : ServerNode) : String :=
  n.host ++ ":" ++ toString n.port

/-- Modelled from the spec: the ring state of the external `conhash` crate
(not in src/), §4.2: a list of (virtual position, backend) pairs kept
sorted by position. -/
abbrev HashRing : Type := List (Nat × ServerNode)

/-- Modelled from the spec: a stable, well-distributed non-cryptographic
hash over bytes into a 32-bit space (§4.2 leaves the function an
implementation choice; it only must be shared by placement and lookup). -/
def bytesHash (bs : List Nat) : Nat :=
  bs.foldl (fun h b => (h * 131 + b) % 4294967296) 5381

/-- Bytes of a string, for hashing virtual-node names. -/
def strBytes (s : String) : List Nat :=
  s.toList.map Char.toNat

/-- Modelled from the spec: position of virtual node `i` of a backend,
`hash(name(backend) || i)` (§4.2). -/
def vhash (name : String) (i : Nat) : Nat :=
  bytesHash (strBytes name ++ strBytes (toString i))

/-- Modelled from the spec: the key-lookup hash, same space as `vhash`. -/
def keyHash (k : List Nat) : Nat :=
  bytesHash k

/-- Whether some virtual node of a backend with this name is on the ring. -/
def hasNode (r : HashRing) (n : ServerNode) : Bool :=
  r.any (fun e => e.2.name == n.name)

/-- Ordered insertion keeping the ring sorted by virtual position. -/
def insertSorted (e : Nat × ServerNode) : HashRing → HashRing
  | [] => [e]
  | f :: rest =>
    if e.1 ≤ f.1 then e :: f :: rest else f :: insertSorted e rest

/-- Modelled from the spec: `add(backend, replicas)` of the `conhash`
crate, §4.2 — idempotent-by-identity: if the backend is already present
the ring is unchanged; otherwise insert `replicas` virtual positions
`vhash (name backend) i` for `i ∈ [0, replicas)`. -/
def ringAdd (r : HashRing) (n : ServerNode) (replicas : Nat) : HashRing :=
  if hasNode r n then r
  else (List.range replicas).foldl
    (fun acc i => insertSorted (vhash n.name i, n) acc) r

/-- Modelled from the spec: `remove(backend)` of the `conhash` crate,
§4.2 — removes every virtual node of that backend; no-op if absent. -/
def ringRemove (r : HashRing) (n : ServerNode) : HashRing :=
  r.filter (fun e => ! (e.2.name == n.name))

/-- Modelled from the spec: `get(key_bytes)` of the `conhash` crate,
§4.2 — hash the key, return the backend of the first virtual position
`≥` the hashed key, wrapping around to the first position; `none` on an
empty ring. -/
def ringGet (r : HashRing) (key : List Nat) : Option ServerNode :=
  match r with
  | [] => none
  | f :: _ =>
    match r.find? (fun e => keyHash key ≤ e.1) with
    | some e => some e.2
    | none => some f.2

/-- `State` from src/event_loop.rs (line 15). -/
inductive CState where
  | Reading
  | Writing
  | Closed
deriving DecidableEq

/-- `HEALTH_UP` from src/event_loop.rs: the bytes of "health: up". -/
def HEALTH_UP : List Nat := [104, 101, 97, 108, 116, 104, 58, 32, 117, 112]

/-- `HEALTH_PACKET` from src/event_loop.rs: the bytes of "health\r\n". -/
def HEALTH_PACKET : List Nat := [104, 101, 97, 108, 116, 104, 13, 10]

/-- `Connection` from src/event_loop.rs (the `stream`, `token` and `buf`
fields are OS/event-loop handles; reads are passed in as `IoRes`). -/
structure Connection where
  failure : Int
  success : Int
  next_retry : Int
  state : CState
  node : ServerNode
deriving DecidableEq

/-- `Connection::new` from src/event_loop.rs lines 36–47: counters zero,
`next_retry = time::now()` (the creation instant), initial state Writing. -/
def Connection.new (node : ServerNode) (now : Int) : Connection :=
  { failure := 0, success := 0, next_retry := now,
    state := CState.Writing, node := node }

/-- The events relevant to `Connection::ready`: mio error / hup flags. -/
structure EventSet where
  is_error : Bool
  is_hup : Bool
deriving DecidableEq

/-- `Connection::on_read` from src/event_loop.rs lines 103–123, with the
result of `stream.read` passed in (`ready data` carries the `n` received
bytes). `Ok(Some(0))`, `Ok(None)` and `Err` only log. -/
def Connection.on_read (c : Connection) (r : IoRes (List Nat)) : Connection :=
  match r with
  | IoRes.ready [] => c
  | IoRes.ready data =>
    if HEALTH_UP.isPrefixOf data then { c with success := c.success + 1 }
    else { c with failure := c.failure + 1 }
  | IoRes.notReady => c
  | IoRes.err => c

/-- `Connection::on_error` from src/event_loop.rs lines 94–97 (the
`shutdown` syscall is external). -/
def Connection.on_error (c : Connection) : Connection :=
  { c with failure := c.failure + 1 }

/-- `Connection::ready` from src/event_loop.rs lines 71–92, with the read
result the Reading branch would obtain passed in.  Error/hup events first
bump `failure` and close; then the state machine advances: Writing writes
the probe and goes to Reading, Reading classifies the read and goes to
Writing, Closed only logs. -/
def Connection.ready (c : Connection) (ev : EventSet) (r : IoRes (List Nat)) :
    Connection :=
  let c := if ev.is_error || ev.is_hup then
    { c.on_error with state := CState.Closed } else c
  match c.state with
  | CState.Closed => c
  | CState.Writing => { c with state := CState.Reading }
  | CState.Reading => { c.on_read r with state := CState.Writing }

/-- `Proxy::parse` from src/event_loop.rs lines 157–170, as the `sendto`
call it makes: on the packet `read_buf[0..n]`, find the first `':'` byte
(58); no colon only logs; otherwise look the prefix up in the ring and,
if a node is returned, pass the whole packet to that node's UDP socket
(`UdpStream::write`, src/socket.rs lines 176–178, a `sendto` of the whole
buffer to the node's stored peer); a `none` lookup only logs. -/
def Proxy.parse (ring : HashRing) (buf : List Nat) (n : Nat) :
    Option (ServerNode × List Nat) :=
  let packet := buf.take n
  match packet.findIdx? (fun x => x == 58) with
  | none => none
  | some i =>
    match ringGet ring (packet.take i) with
    | some node => some (node, packet)
    | none => none

/-- Observable effect of one ingress readable event (`Proxy::read`):
whether the handler re-armed readable interest, whether it panicked
(an `unwrap` on `Err`), what it passed to the backend `sendto`, and the
ring afterwards. -/
structure ReadEffect where
  rearm : Bool
  panicked : Bool
  send : Option (ServerNode × List Nat)
  ringAfter : HashRing
deriving DecidableEq

/-- `Proxy::read` from src/event_loop.rs lines 172–192, with the result
of `server.read` (recvfrom) and the result the backend `sendto` would
return passed in.  `Ok(Some((0,_)))` only logs; `Ok(Some((n,_)))` parses
and re-arms; `Ok(None)` re-arms; `Err` panics.  The `unwrap` on
`node.sock.write(packet)` inside `parse` panics when the sendto errs. -/
def Proxy.read (ring : HashRing) (recv : IoRes (List Nat))
    (sendRes : IoRes Nat) : ReadEffect :=
  match recv with
  | IoRes.ready data =>
    if data.isEmpty then
      { rearm := false, panicked := false, send := none, ringAfter := ring }
    else
      match Proxy.parse ring data data.length with
      | none =>
        { rearm := true, panicked := false, send := none, ringAfter := ring }
      | some sc =>
        match sendRes with
        | IoRes.err =>
          { rearm := false, panicked := true, send := some sc,
            ringAfter := ring }
        | _ =>
          { rearm := true, panicked := false, send := some sc,
            ringAfter := ring }
  | IoRes.notReady =>
    { rearm := true, panicked := false, send := none, ringAfter := ring }
  | IoRes.err =>
    { rearm := false, panicked := true, send := none, ringAfter := ring }

/-- The eviction step of `Proxy::timeout` (src/event_loop.rs lines
229–232): `failure > 2` removes the backend from the ring and resets
`failure` to 0. -/
def tickEvict (ring : HashRing) (c : Connection) : HashRing × Connection :=
  if c.failure > 2 then (ringRemove ring c.node, { c with failure := 0 })
  else (ring, c)

/-- The cool-down step of `Proxy::timeout` (src/event_loop.rs lines
234–236): when more than 30 seconds have passed since `next_retry`,
reset `failure` to 0. -/
def tickCooldown (now : Int) (c : Connection) : Connection :=
  if now - c.next_retry > 30 then { c with failure := 0 } else c

/-- The FSM-advance step of `Proxy::timeout` (src/event_loop.rs lines
238–246): a Closed connection gets a fresh stream, registers, and moves
to Writing; a Writing connection only re-registers; Reading is left
alone. -/
def tickAdvance (c : Connection) : Connection :=
  match c.state with
  | CState.Closed => { c with state := CState.Writing }
  | _ => c

/-- One connection's slice of `Proxy::timeout`: eviction, then cool-down,
then FSM advance, threading the ring. -/
def tickConn (now : Int) (ring : HashRing) (c : Connection) :
    HashRing × Connection :=
  let rc := tickEvict ring c
  (rc.1, tickAdvance (tickCooldown now rc.2))

/-- `Proxy::timeout` from src/event_loop.rs lines 223–251: iterate the
health connections in order, threading the ring through each (the
re-arming of the timer itself is external). -/
def Proxy.timeout (now : Int) (ring : HashRing) :
    List Connection → HashRing × List Connection
  | [] => (ring, [])
  | c :: cs =>
    let rc := tickConn now ring c
    let rest := Proxy.timeout now rc.1 cs
    (rest.1, rc.2 :: rest.2)

/-- `Proxy::new` from src/event_loop.rs lines 136–151: the initial ring
adds every health connection's node with 20 replicas. -/
def Proxy.initRing (conns : List Connection) : HashRing :=
  conns.foldl (fun r c => ringAdd r c.node 20) []

/-! ### Helper lemmas -/

theorem isPrefixOf_iff_exists (l₁ l₂ : List Nat) :
    l₁.isPrefixOf l₂ = true ↔ ∃ t, l₂ = l₁ ++ t := by
  induction l₁ generalizing l₂ with
  | nil => simp [List.isPrefixOf]
  | cons a as ih =>
    cases l₂ with
    | nil => simp [List.isPrefixOf]
    | cons b bs =>
      simp only [List.isPrefixOf, Bool.and_eq_true, beq_iff_eq, ih,
        List.cons_append, List.cons.injEq]
      constructor
      · rintro ⟨hab, t, ht⟩
        exact ⟨t, hab.symm, ht⟩
      · rintro ⟨t, hba, ht⟩
        exact ⟨hba.symm, t, ht⟩

theorem findIdx_first_colon (k rest : List Nat) (hk : ∀ x ∈ k, x ≠ 58) :
    (k ++ 58 :: rest).findIdx? (fun x => x == 58) = some k.length := by
  induction k with
  | nil => simp [List.findIdx?_cons]
  | cons a as ih =>
    have ha : (a == 58) = false := by
      simpa using hk a (List.mem_cons_self a as)
    have has : ∀ x ∈ as, x ≠ 58 := fun x hx => hk x (List.mem_cons_of_mem a hx)
    simp [List.findIdx?_cons, ha, ih has]

theorem any_insertSorted (e : Nat × ServerNode) (r : HashRing)
    (p : Nat × ServerNode → Bool) :
    (insertSorted e r).any p = (p e || r.any p) := by
  induction r with
  | nil => simp [insertSorted]
  | cons f rest ih =>
    by_cases h : e.1 ≤ f.1
    · simp [insertSorted, h]
    · simp only [insertSorted, if_neg h, List.any_cons, ih]
      cases p e <;> cases p f <;> cases rest.any p <;> rfl

theorem any_fold_insert (nm : String) (nd : ServerNode)
    (p : Nat × ServerNode → Bool) (l : List Nat) (acc : HashRing) :
    (l.foldl (fun a i => insertSorted (vhash nm i, nd) a) acc).any p =
      (acc.any p || l.any (fun i => p (vhash nm i, nd))) := by
  induction l generalizing acc with
  | nil => simp
  | cons i l ih =>
    simp only [List.foldl_cons, List.any_cons, ih, any_insertSorted]
    cases p (vhash nm i, nd) <;> cases acc.any p <;>
      cases l.any (fun j => p (vhash nm j, nd)) <;> rfl

theorem hasNode_ringAdd_self (r : HashRing) (n : ServerNode) :
    hasNode (ringAdd r n 20) n = true := by
  unfold ringAdd
  by_cases h : hasNode r n = true
  · rw [if_pos h]; exact h
  · rw [if_neg h]
    unfold hasNode
    rw [any_fold_insert]
    simp only [Bool.or_eq_true]
    right
    exact List.any_eq_true.mpr ⟨0, by simp, by simp⟩

theorem ringAdd_of_hasNode (r : HashRing) (n : ServerNode)
    (h : hasNode r n = true) : ringAdd r n 20 = r := by
  simp [ringAdd, h]

theorem hasNode_ringRemove_self (r : HashRing) (n : ServerNode) :
    hasNode (ringRemove r n) n = false := by
  induction r with
  | nil => rfl
  | cons e rest ih =>
    by_cases h : (e.2.name == n.name) = true
    · simpa [ringRemove, List.filter_cons, h] using ih
    · have h' : (e.2.name == n.name) = false := by
        simp [h]
      simp [ringRemove, hasNode, List.filter_cons, h']

theorem ringRemove_idem (r : HashRing) (n : ServerNode) :
    ringRemove (ringRemove r n) n = ringRemove r n := by
  unfold ringRemove
  rw [List.filter_filter]
  simp

theorem hasNode_ringRemove_of_absent (r : HashRing) (n m : ServerNode)
    (h : hasNode r m = false) : hasNode (ringRemove r n) m = false := by
  rw [Bool.eq_false_iff] at h ⊢
  intro hc
  apply h
  rcases List.any_eq_true.mp hc with ⟨e, he, hp⟩
  exact List.any_eq_true.mpr ⟨e, List.mem_of_mem_filter he, hp⟩

theorem hasNode_tickConn_of_absent (now : Int) (ring : HashRing)
    (c : Connection) (m : ServerNode) (h : hasNode ring m = false) :
    hasNode (tickConn now ring c).1 m = false := by
  unfold tickConn tickEvict
  by_cases hf : c.failure > 2
  · simpa [hf] using hasNode_ringRemove_of_absent ring c.node m h
  · simpa [hf] using h

theorem timeout_of_absent (now : Int) (conns : List Connection) :
    ∀ (ring : HashRing) (m : ServerNode), hasNode ring m = false →
      hasNode (Proxy.timeout now ring conns).1 m = false := by
  induction conns with
  | nil => intro ring m h; simpa [Proxy.timeout] using h
  | cons c cs ih =>
    intro ring m h
    simpa [Proxy.timeout] using
      ih (tickConn now ring c).1 m (hasNode_tickConn_of_absent now ring c m h)

theorem tickAdvance_fields (c : Connection) :
    (tickAdvance c).failure = c.failure ∧
    (tickAdvance c).success = c.success ∧
    (tickAdvance c).next_retry = c.next_retry := by
  unfold tickAdvance
  split <;> simp

theorem tickCooldown_fields (now : Int) (c : Connection) :
    (tickCooldown now c).success = c.success ∧
    (tickCooldown now c).next_retry = c.next_retry := by
  unfold tickCooldown
  split <;> simp

theorem tickConn_failure_of_evict (now : Int) (ring : HashRing)
    (c : Connection) (h : c.failure > 2) :
    (tickConn now ring c).2.failure = 0 := by
  unfold tickConn tickEvict tickCooldown
  simp only [h, if_true]
  split <;> simp [(tickAdvance_fields _).1]

theorem tickConn_ring_of_evict (now : Int) (ring : HashRing)
    (c : Connection) (h : c.failure > 2) :
    (tickConn now ring c).1 = ringRemove ring c.node := by
  simp [tickConn, tickEvict, h]

theorem on_read_ready (c : Connection) (data : List Nat) (h : data ≠ []) :
    Connection.on_read c (IoRes.ready data) =
      if HEALTH_UP.isPrefixOf data then { c with success := c.success + 1 }
      else { c with failure := c.failure + 1 } := by
  cases data with
  | nil => exact absurd rfl h
  | cons d ds => rfl

theorem on_read_cases (c : Connection) (r : IoRes (List Nat)) :
    Connection.on_read c r = c ∨
    Connection.on_read c r = { c with success := c.success + 1 } ∨
    Connection.on_read c r = { c with failure := c.failure + 1 } := by
  cases r with
  | ready data =>
    cases data with
    | nil => exact Or.inl rfl
    | cons d ds =>
      rw [on_read_ready c (d :: ds) (by simp)]
      by_cases hp : HEALTH_UP.isPrefixOf (d :: ds) = true
      · exact Or.inr (Or.inl (by rw [if_pos hp]))
      · exact Or.inr (Or.inr (by rw [if_neg hp]))
  | notReady => exact Or.inl rfl
  | err => exact Or.inl rfl

theorem on_read_next_retry (c : Connection) (r : IoRes (List Nat)) :
    (Connection.on_read c r).next_retry = c.next_retry := by
  rcases on_read_cases c r with h | h | h <;> rw [h]

theorem on_read_success_le (c : Connection) (r : IoRes (List Nat)) :
    c.success ≤ (Connection.on_read c r).success := by
  rcases on_read_cases c r with h | h | h <;> rw [h]
  exact Int.le_of_lt (Int.lt_add_one_of_le (le_refl _))

theorem ready_frame (c : Connection) (ev : EventSet) (r : IoRes (List Nat)) :
    (Connection.ready c ev r).next_retry = c.next_retry ∧
    c.success ≤ (Connection.ready c ev r).success := by
  simp only [Connection.ready]
  generalize hC : (if (ev.is_error || ev.is_hup) = true then
    { c.on_error with state := CState.Closed } else c) = c1
  have h1 : c1.next_retry = c.next_retry ∧ c1.success = c.success := by
    rw [← hC]
    split <;> exact ⟨rfl, rfl⟩
  split
  · exact ⟨h1.1, le_of_eq h1.2.symm⟩
  · exact ⟨h1.1, le_of_eq h1.2.symm⟩
  · constructor
    · show (c1.on_read r).next_retry = c.next_retry
      rw [on_read_next_retry, h1.1]
    · show c.success ≤ (c1.on_read r).success
      rw [← h1.2]
      exact on_read_success_le c1 r

theorem tickEvict_next_retry (ring : HashRing) (c : Connection) :
    (tickEvict ring c).2.next_retry = c.next_retry := by
  unfold tickEvict
  split <;> rfl

theorem tickEvict_success (ring : HashRing) (c : Connection) :
    (tickEvict ring c).2.success = c.success := by
  unfold tickEvict
  split <;> rfl

theorem tickConn_conn_frame (now : Int) (ring : HashRing) (c : Connection) :
    (tickConn now ring c).2.next_retry = c.next_retry ∧
    (tickConn now ring c).2.success = c.success := by
  constructor
  · simp only [tickConn]
    rw [(tickAdvance_fields _).2.2, (tickCooldown_fields _ _).2,
      tickEvict_next_retry]
  · simp only [tickConn]
    rw [(tickAdvance_fields _).2.1, (tickCooldown_fields _ _).1,
      tickEvict_success]

theorem tickConn_cooldown_reset (now : Int) (ring : HashRing)
    (c : Connection) (h : now - c.next_retry > 30) :
    (tickConn now ring c).2.failure = 0 := by
  simp only [tickConn]
  rw [(tickAdvance_fields _).1]
  have hnr : (tickEvict ring c).2.next_retry = c.next_retry :=
    tickEvict_next_retry ring c
  unfold tickCooldown
  rw [hnr, if_pos h]

/-! ### Concrete inputs used by witnesses and counterexamples -/

/-- A concrete backend. -/
def nodeA : ServerNode := { host := "a", port := 1, adminport := 2 }

/-- A one-entry ring holding `nodeA` at position 0 (every key wraps to it). -/
def ringOne : HashRing := [(0, nodeA)]

/-- A health connection sitting in the Reading state. -/
def connRead : Connection :=
  { failure := 0, success := 0, next_retry := 0,
    state := CState.Reading, node := nodeA }

/-- A health connection with three consecutive failures. -/
def connEvict : Connection :=
  { failure := 3, success := 0, next_retry := 0,
    state := CState.Writing, node := nodeA }

/-- A health connection with a recorded success whose backend is absent
from the ring. -/
def connAbsent : Connection :=
  { failure := 0, success := 1, next_retry := 0,
    state := CState.Writing, node := nodeA }

/-- An event set with neither error nor hup. -/
def evNone : EventSet := { is_error := false, is_hup := false }

/-! ### The claims -/

/-- C1: for every ingress datagram of `n > 0` bytes containing a `':'`
(byte 58), `Proxy::parse` looks up exactly the bytes strictly before the
first `':'` in the ring, and when the lookup returns a backend the whole
original datagram is handed to that backend's UDP send socket; when the
lookup returns none nothing is sent. -/
theorem parse_routes_on_first_colon (ring : HashRing) (buf : List Nat)
    (n : Nat) (k rest : List Nat) (_hn : n ≤ buf.length)
    (hk : ∀ x ∈ k, x ≠ 58) (hsplit : buf.take n = k ++ 58 :: rest) :
    Proxy.parse ring buf n =
      Option.map (fun node => (node, k ++ 58 :: rest)) (ringGet ring k) := by
  simp only [Proxy.parse]
  rw [hsplit, findIdx_first_colon k rest hk]
  have ht : (k ++ 58 :: rest).take k.length = k := List.take_left k (58 :: rest)
  cases hG : ringGet ring k with
  | none => simp [ht, hG]
  | some nd => simp [ht, hG]

/-- C1 witness: the datagram "k:v" on a one-backend ring. -/
theorem parse_routes_on_first_colon_witness :
    Proxy.parse ringOne [107, 58, 118] 3 =
      Option.map (fun node => (node, [107] ++ 58 :: [118]))
        (ringGet ringOne [107]) :=
  parse_routes_on_first_colon ringOne [107, 58, 118] 3 [107] [118]
    (by decide) (by decide) (by decide)

/-- C2 (code bug): the tick handler contains no reinstatement logic.
At the failing input — a tick at time 0 over the empty ring with one
connection whose backend is absent and whose `success` is 1 — the tick
leaves the ring empty and the connection (its `success` included)
untouched, instead of re-adding the backend with 20 replicas and
resetting `success`. -/
theorem timeout_no_reinstatement :
    Proxy.timeout 0 [] [connAbsent] = ([], [connAbsent]) ∧
    hasNode [] nodeA = false ∧ connAbsent.success = 1 := by
  decide

/-- C3 counterexample: with a backend on the ring and a routable
datagram, a hard error from the backend `sendto` makes the worker panic
(the `unwrap` in `Proxy::parse`), rather than being logged and
ignored. -/
theorem read_send_error_panics :
    (Proxy.read ringOne (IoRes.ready [107, 58, 118])
      (IoRes.err : IoRes Nat)).panicked = true := by
  decide

/-- C3 (amended): a would-block (`NotReady`) result or a successful
(possibly partial) send from the backend `sendto` is discarded and the
engine continues with its ring unchanged; a hard `sendto` error makes the
worker panic. -/
theorem read_send_nonerror_continues (ring : HashRing) (data : List Nat)
    (res : IoRes Nat) (h : res ≠ IoRes.err) :
    (Proxy.read ring (IoRes.ready data) res).panicked = false ∧
    (Proxy.read ring (IoRes.ready data) res).ringAfter = ring := by
  simp only [Proxy.read]
  by_cases hd : data.isEmpty = true
  · simp [hd]
  · simp only [if_neg hd]
    cases hp : Proxy.parse ring data data.length with
    | none => simp [hp]
    | some sc =>
      cases res with
      | ready m => simp [hp]
      | notReady => simp [hp]
      | err => exact absurd rfl h

/-- C3 witness: a routable datagram whose send would block. -/
theorem read_send_nonerror_continues_witness :
    (Proxy.read ringOne (IoRes.ready [107, 58, 118])
      (IoRes.notReady : IoRes Nat)).panicked = false ∧
    (Proxy.read ringOne (IoRes.ready [107, 58, 118])
      (IoRes.notReady : IoRes Nat)).ringAfter = ringOne :=
  read_send_nonerror_continues ringOne [107, 58, 118] IoRes.notReady
    (by decide)

/-- C4: on every tick, every connection with `failure > 2` has its
backend removed from the ring (and the ring gains no node during the
tick, so it is absent when the tick ends) and its `failure` reset
to 0. -/
theorem timeout_evicts_failed (now : Int) (ring : HashRing)
    (conns : List Connection) :
    (∀ c ∈ conns, c.failure > 2 →
      hasNode (Proxy.timeout now ring conns).1 c.node = false) ∧
    List.Forall₂ (fun c c2 => c.failure > 2 → c2.failure = 0)
      conns (Proxy.timeout now ring conns).2 := by
  induction conns generalizing ring with
  | nil => exact ⟨by simp, by simp [Proxy.timeout]⟩
  | cons c cs ih =>
    constructor
    · intro d hd hfail
      rcases List.mem_cons.mp hd with h | h
      · subst h
        have h1 : hasNode (tickConn now ring d).1 d.node = false := by
          rw [tickConn_ring_of_evict now ring d hfail]
          exact hasNode_ringRemove_self ring d.node
        simp only [Proxy.timeout]
        exact timeout_of_absent now cs _ d.node h1
      · simp only [Proxy.timeout]
        exact (ih (tickConn now ring c).1).1 d h hfail
    · simp only [Proxy.timeout]
      exact List.Forall₂.cons
        (fun hf => tickConn_failure_of_evict now ring c hf)
        (ih (tickConn now ring c).1).2

/-- C4 witness: a connection with 3 failures is evicted from a ring
holding its backend. -/
theorem timeout_evicts_failed_witness :
    hasNode (Proxy.timeout 0 ringOne [connEvict]).1 connEvict.node = false :=
  (timeout_evicts_failed 0 ringOne [connEvict]).1 connEvict
    (by simp) (by decide)

/-- C5: a Reading-state read of `n > 0` bytes bumps exactly one counter
by exactly one: `success` when the received bytes extend the prefix
"health: up" (`HEALTH_UP ++ rest`, so longer replies still count), and
`failure` when the received bytes are not of that shape. -/
theorem on_read_classifies (c : Connection) (rest data : List Nat)
    (hne : data ≠ []) (hnp : ¬ ∃ t, data = HEALTH_UP ++ t) :
    Connection.on_read c (IoRes.ready (HEALTH_UP ++ rest)) =
      { c with success := c.success + 1 } ∧
    Connection.on_read c (IoRes.ready data) =
      { c with failure := c.failure + 1 } := by
  have h1 : (HEALTH_UP ++ rest) ≠ [] := by simp [HEALTH_UP]
  have hp1 : HEALTH_UP.isPrefixOf (HEALTH_UP ++ rest) = true :=
    (isPrefixOf_iff_exists _ _).mpr ⟨rest, rfl⟩
  have hp2 : HEALTH_UP.isPrefixOf data = false := by
    rw [Bool.eq_false_iff]
    intro hc
    exact hnp ((isPrefixOf_iff_exists _ _).mp hc)
  rw [on_read_ready c _ h1, on_read_ready c data hne, if_pos hp1, if_neg]
  · exact ⟨rfl, rfl⟩
  · simp [hp2]

/-- C5 witness: a long healthy reply and an unhealthy one. -/
theorem on_read_classifies_witness :
    Connection.on_read connRead (IoRes.ready (HEALTH_UP ++ [33])) =
      { connRead with success := connRead.success + 1 } ∧
    Connection.on_read connRead (IoRes.ready [1]) =
      { connRead with failure := connRead.failure + 1 } :=
  on_read_classifies connRead [33] [1] (by decide)
    (by rintro ⟨t, ht⟩; simp [HEALTH_UP] at ht)

/-- C6 counterexample: a 0-byte (EOF) read on a Reading-state connection
does not leave the FSM state unchanged — `Connection::ready` still
performs its Reading → Writing transition. -/
theorem ready_eof_changes_state :
    connRead.state = CState.Reading ∧
    (Connection.ready connRead evNone (IoRes.ready [])).state =
      CState.Writing := by
  decide

/-- C6 (amended): a 0-byte (EOF) read is handled exactly like `NotReady`
in every state — neither counter changes — but the `ready` handler still
performs its normal transition, so a Reading-state connection without an
error/hup event ends the event in the Writing state rather than
unchanged. -/
theorem ready_eof_like_notready (c : Connection) (ev : EventSet) :
    Connection.ready c ev (IoRes.ready []) =
      Connection.ready c ev IoRes.notReady ∧
    ((ev.is_error || ev.is_hup) = false → c.state = CState.Reading →
      Connection.ready c ev (IoRes.ready []) =
        { c with state := CState.Writing }) := by
  constructor
  · simp only [Connection.ready]
    generalize (if (ev.is_error || ev.is_hup) = true then
      { c.on_error with state := CState.Closed } else c) = c1
    split <;> rfl
  · intro hev hst
    simp only [Connection.ready, hev, Bool.false_eq_true, if_false, hst]
    rfl

/-- C6 witness: the Reading-state connection at a clean event. -/
theorem ready_eof_like_notready_witness :
    Connection.ready connRead evNone (IoRes.ready []) =
      { connRead with state := CState.Writing } :=
  (ready_eof_like_notready connRead evNone).2 (by decide) (by decide)

/-- C7 counterexample: after a `Ready(0, _)` recvfrom (an empty
datagram), `Proxy::read` returns without re-arming the ingress socket. -/
theorem read_zero_bytes_no_rearm :
    (Proxy.read ringOne (IoRes.ready []) (IoRes.notReady : IoRes Nat)).rearm
      = false := by
  decide

/-- C7 (amended): after a readable ingress event, the handler re-arms the
ingress socket on `Ready(n)` with `n > 0` (when the backend send does not
make it panic) and on `NotReady`; on `Ready(0)` it returns without
re-arming; a recvfrom error panics (aborts the worker). -/
theorem read_rearm_policy (ring : HashRing) (data : List Nat)
    (sendRes : IoRes Nat) (hne : data ≠ []) (hs : sendRes ≠ IoRes.err) :
    (Proxy.read ring (IoRes.ready []) sendRes).rearm = false ∧
    (Proxy.read ring IoRes.notReady sendRes).rearm = true ∧
    (Proxy.read ring IoRes.err sendRes).panicked = true ∧
    (Proxy.read ring (IoRes.ready data) sendRes).rearm = true := by
  refine ⟨by simp [Proxy.read], by simp [Proxy.read], by simp [Proxy.read], ?_⟩
  cases data with
  | nil => exact absurd rfl hne
  | cons d ds =>
    simp only [Proxy.read, List.isEmpty_cons, Bool.false_eq_true, if_false]
    cases hp : Proxy.parse ring (d :: ds) (d :: ds).length with
    | none => simp [hp]
    | some sc =>
      cases sendRes with
      | ready m => simp [hp]
      | notReady => simp [hp]
      | err => exact absurd rfl hs

/-- C7 witness: a routable 3-byte datagram with a would-block send. -/
theorem read_rearm_policy_witness :
    (Proxy.read ringOne (IoRes.ready [107, 58, 118])
      (IoRes.notReady : IoRes Nat)).rearm = true :=
  (read_rearm_policy ringOne [107, 58, 118] IoRes.notReady
    (by decide) (by decide)).2.2.2

/-- C8: ring add and remove are idempotent — `add(b, 20)` twice equals
once (an already-present backend leaves the ring unchanged), and
`remove(b)` twice equals once (removing an absent backend is a no-op). -/
theorem ring_add_remove_idempotent (r : HashRing) (n : ServerNode) :
    ringAdd (ringAdd r n 20) n 20 = ringAdd r n 20 ∧
    ringRemove (ringRemove r n) n = ringRemove r n :=
  ⟨ringAdd_of_hasNode _ n (hasNode_ringAdd_self r n), ringRemove_idem r n⟩

/-- C9: `next_retry` is set only by `Connection::new` (to the creation
instant) and preserved by every operation — the readiness handler, the
read handler and the tick — and on every tick strictly more than 30
seconds after that instant the tick resets `failure` to 0 (after the
eviction check). -/
theorem next_retry_fixed_and_cooldown (c : Connection) (ev : EventSet)
    (r : IoRes (List Nat)) (now : Int) (ring : HashRing)
    (node : ServerNode) (t : Int) :
    (Connection.new node t).next_retry = t ∧
    (Connection.ready c ev r).next_retry = c.next_retry ∧
    (Connection.on_read c r).next_retry = c.next_retry ∧
    (tickConn now ring c).2.next_retry = c.next_retry ∧
    (now - c.next_retry > 30 → (tickConn now ring c).2.failure = 0) :=
  ⟨rfl, (ready_frame c ev r).1, on_read_next_retry c r,
    (tickConn_conn_frame now ring c).1, tickConn_cooldown_reset now ring c⟩

/-- C9 witness: a tick 31 seconds after creation resets `failure`. -/
theorem next_retry_fixed_and_cooldown_witness :
    (Connection.new nodeA 5).next_retry = 5 ∧
    (tickConn 31 ringOne connRead).2.failure = 0 :=
  ⟨(next_retry_fixed_and_cooldown connRead evNone IoRes.notReady 31 ringOne
      nodeA 5).1,
    (next_retry_fixed_and_cooldown connRead evNone IoRes.notReady 31 ringOne
      nodeA 5).2.2.2.2 (by decide)⟩

/-- C10: `success` is monotonically non-decreasing: the readiness and
read handlers only ever keep it or bump it by exactly 1 (on a healthy
reply), and the tick handler never changes it. -/
theorem success_monotone (c : Connection) (ev : EventSet)
    (r : IoRes (List Nat)) (now : Int) (ring : HashRing) :
    c.success ≤ (Connection.ready c ev r).success ∧
    c.success ≤ (Connection.on_read c r).success ∧
    ((Connection.on_read c r).success = c.success ∨
      (Connection.on_read c r).success = c.success + 1) ∧
    (tickConn now ring c).2.success = c.success := by
  refine ⟨(ready_frame c ev r).2, on_read_success_le c r, ?_,
    (tickConn_conn_frame now ring c).2⟩
  rcases on_read_cases c r with h | h | h
  · rw [h]; left; rfl
  · rw [h]; right; rfl
  · rw [h]; left; rfl
